import Mathlib

set_option linter.unusedVariables false

/-!
Shallow embedding of the GLaDOS check-in script (src/glados.py) and proofs
about its message translation, day formatting, response handling and
orchestration logic.  Python strings are modelled as lists of characters,
Python str operations (substring test, split, lower, rstrip) are embedded
as executable Lean functions with the same semantics, and the stateful
orchestrator is modelled as a trace-producing function over an oracle that
supplies network responses and random sleep durations.
-/

abbrev Chars := List Char

/-- Python substring test: occursIn sep l models the Python expression
sep in l on strings (scan left to right for a position where sep is a
prefix of the remaining text). -/
def occursIn (sep : Chars) : Chars → Bool
  | [] => sep.isEmpty
  | c :: rest => sep.isPrefixOf (c :: rest) || occursIn sep rest

/-- Python str.split with a nonempty separator, fuel-indexed so that the
recursion is structural: returns the list of segments between
non-overlapping occurrences of the separator, scanning left to right,
keeping empty segments, exactly as Python does.  The fuel argument is an
upper bound on the scan length; every call through splitOnL supplies
enough fuel, and splitOnFuel_congr below shows the result does not
depend on the exact fuel once it suffices.  A call with an empty
separator raises ValueError in Python and is modelled as the identity
segmentation (never used with an empty separator here). -/
def splitOnFuel (sep : Chars) : ℕ → Chars → List Chars
  | _, [] => [[]]
  | 0, l => [l]
  | fuel + 1, c :: rest =>
    if sep.isEmpty then [c :: rest]
    else if sep.isPrefixOf (c :: rest) then
      [] :: splitOnFuel sep fuel (List.drop sep.length (c :: rest))
    else
      match splitOnFuel sep fuel rest with
      | [] => [[c]]
      | s :: ss => (c :: s) :: ss

/-- Python str.split with a nonempty separator. -/
def splitOnL (sep : Chars) (l : Chars) : List Chars :=
  splitOnFuel sep l.length l

/-- Python str.lower restricted to the ASCII range that the script uses. -/
def lowerL (l : Chars) : Chars := l.map Char.toLower

/-- The marker before the points number in server messages, from
raw_message.split with the literal Got followed by a space. -/
def gotMarker : Chars := "Got ".data

/-- The marker after the points number in server messages, a space
followed by the literal Points. -/
def pointsMarker : Chars := " Points".data

/-- Embedding of the try block in translate_message lines 69 to 72:
points = raw_message.split on the Got marker, element 1, then split on
the Points marker, element 0.  Element 1 is missing exactly when the Got
marker does not occur in the message; Python raises IndexError there,
the except clause catches it and leaves points = None, modelled as none.
Element 0 of a Python split always exists. -/
def extractPointsL (msg : Chars) : Option Chars :=
  match (splitOnL gotMarker msg).get? 1 with
  | none => none
  | some seg => some ((splitOnL pointsMarker seg).getD 0 [])

/-- Python truthiness of an optional string argument: None and the empty
string are falsy, everything else is truthy. -/
def truthyOptStr (o : Option Chars) : Bool :=
  match o with
  | none => false
  | some s => !s.isEmpty

/-- Embedding of translate_message (src/glados.py lines 61 to 82) on
character lists.  raw models the raw_message argument (none models the
Python value None), points models the points keyword argument already
rendered to text as the f-string would render it. -/
def translateMessageL (raw : Option Chars) (points : Option Chars) : Chars :=
  if raw == some "Please Try Tomorrow".data then
    "签到失败，请明天再试 🤖".data
  else
    let msg := raw.getD []
    let msgLower := lowerL msg
    if occursIn "got".data msgLower then
      let pts : Option Chars :=
        match points with
        | some p => some p
        | none => extractPointsL msg
      match pts with
      | some p => "签到成功，获得".data ++ p ++ "积分 🎉".data
      | none => "签到成功 🎉 (".data ++ msg ++ ")".data
    else if occursIn "repeat".data msgLower || occursIn "already".data msgLower then
      "重复签到，请明天再试 🔁".data
    else if truthyOptStr raw then
      "未知的签到结果: ".data ++ msg ++ " ❓".data
    else
      "未知的签到结果: (empty message) ❓".data

/-- String-level wrapper of translate_message, the function named
translate_message in src/glados.py. -/
def translate_message (raw : Option String) (points : Option String) : String :=
  ⟨translateMessageL (raw.map String.data) (points.map String.data)⟩

/-- Decimal digit character for a digit value below ten. -/
def digitChar : ℕ → Char
  | 0 => '0'
  | 1 => '1'
  | 2 => '2'
  | 3 => '3'
  | 4 => '4'
  | 5 => '5'
  | 6 => '6'
  | 7 => '7'
  | 8 => '8'
  | _ => '9'

/-- Decimal rendering of a natural number, fuel-indexed structural
recursion; natDigits supplies enough fuel for any input. -/
def natDigitsAux : ℕ → ℕ → Chars
  | 0, _ => []
  | fuel + 1, n =>
    if n < 10 then [digitChar n]
    else natDigitsAux fuel (n / 10) ++ [digitChar (n % 10)]

/-- Decimal rendering of a natural number, as Python str renders a
nonnegative int. -/
def natDigits (n : ℕ) : Chars := natDigitsAux (n + 1) n

/-- ASCII decimal digit test, the character class accepted inside a
simple decimal literal. -/
def isDigitCh (c : Char) : Bool := 48 ≤ c.toNat && c.toNat ≤ 57

/-- Value of a string of decimal digit characters, most significant
first, as Python int parsing computes it. -/
def digitsToNat (l : Chars) : ℕ :=
  l.foldl (fun a c => a * 10 + (c.toNat - 48)) 0

/-- Modelled from the source expression float applied to days_str (line
99): exact parsing of an unsigned decimal literal, returning the integer
part and the list of fractional digit characters.  Literals with a sign,
an exponent, or special float spellings are outside the modelled domain
and rejected; within this domain the model is the exact decimal value,
which agrees with the Python float pipeline for every value the claims
exercise. -/
def parseDec (s : Chars) : Option (ℕ × Chars) :=
  match splitOnL ['.'] s with
  | [ip] => if !ip.isEmpty && ip.all isDigitCh then some (digitsToNat ip, []) else none
  | [ip, fp] =>
    if (!ip.isEmpty || !fp.isEmpty) && ip.all isDigitCh && fp.all isDigitCh then
      some (digitsToNat ip, fp)
    else none
  | _ => none

/-- Python str.rstrip with a single-character strip set: removes every
trailing occurrence of that character. -/
def rstripChar (c : Char) (l : Chars) : Chars :=
  (l.reverse.dropWhile (fun x => x == c)).reverse

/-- Left zero padding to a given width, as the fixed-point format
specifier pads the fractional block. -/
def padZeros (w : ℕ) (l : Chars) : Chars :=
  List.replicate (w - l.length) '0' ++ l

/-- Round-half-to-even division, the rounding mode of Python fixed-point
formatting. -/
def roundHalfEven (n d : ℕ) : ℕ :=
  let q := n / d
  let r := n % d
  if 2 * r < d then q
  else if d < 2 * r then q + 1
  else if q % 2 = 0 then q else q + 1

/-- Fractional digit block scaled to eight places: the value of the
fractional digits as a multiple of ten to the minus eight, rounding
half to even when more than eight digits are present. -/
def fracScaled8 (fp : Chars) : ℕ :=
  if fp.length ≤ 8 then digitsToNat fp * 10 ^ (8 - fp.length)
  else roundHalfEven (digitsToNat fp) (10 ^ (fp.length - 8))

/-- Embedding of format_days (src/glados.py lines 98 to 102).  The
value is parsed, an integral value is rendered as a bare integer via
str applied to int, and a fractional value is rendered with eight
fractional digits and then stripped of trailing zeros and of a trailing
decimal point, exactly as the source chains rstrip of zeros then rstrip
of the dot.  none models the float constructor raising on unparsable
input. -/
def format_days (s : String) : Option String :=
  match parseDec s.data with
  | none => none
  | some (ip, fp) =>
    if digitsToNat fp = 0 then some ⟨natDigits ip⟩
    else
      let total := ip * 10 ^ 8 + fracScaled8 fp
      let ipart := total / 10 ^ 8
      let f8 := total % 10 ^ 8
      some ⟨rstripChar '.' (rstripChar '0'
        (natDigits ipart ++ '.' :: padZeros 8 (natDigits f8)))⟩

/-- Decimal rendering of an integer, as Python str renders an int. -/
def intStr (n : ℤ) : String :=
  if n < 0 then ⟨'-' :: natDigits (-n).toNat⟩ else ⟨natDigits n.toNat⟩

/-- Values a JSON body can decode to, as Python json loading produces
them: null, booleans, integers, strings, arrays and objects.  Float
literals in bodies are outside the modelled domain (no claim exercises
them). -/
inductive PyVal where
  | null
  | bool (b : Bool)
  | int (n : ℤ)
  | str (s : String)
  | list (elems : List PyVal)
  | dict (entries : List (String × PyVal))

/-- Python truthiness of a decoded JSON value: null, False, zero, the
empty string, the empty array and the empty object are falsy. -/
def pyTruthy : PyVal → Bool
  | PyVal.null => false
  | PyVal.bool b => b
  | PyVal.int n => n != 0
  | PyVal.str s => !s.isEmpty
  | PyVal.list elems => !elems.isEmpty
  | PyVal.dict entries => !entries.isEmpty

/-- Python dict key lookup on the entry list of a decoded JSON object
(JSON object decoding yields unique keys). -/
def dictGet : List (String × PyVal) → String → Option PyVal
  | [], _ => none
  | (k, v) :: rest, key => if k == key then some v else dictGet rest key

/-- Python str rendering of a decoded value as an f-string interpolates
it.  Scalars are rendered exactly; the container renderings are
simplified placeholders, outside the domain any claim exercises. -/
def pyRender : PyVal → String
  | PyVal.null => "None"
  | PyVal.bool true => "True"
  | PyVal.bool false => "False"
  | PyVal.int n => intStr n
  | PyVal.str s => s
  | PyVal.list _ => "[...]"
  | PyVal.dict _ => "{...}"

/-- An HTTP response as the claims need it: the status code and the
outcome of parsing the body as JSON, where none models a body that is
not valid JSON. -/
structure Resp where
  status : ℕ
  body : Option PyVal

/-- Embedding of safe_json (src/glados.py lines 47 to 58): the parse
exception is caught, a debug line may be logged, and None is returned,
so the caller sees the parsed value or the absence of one and no
exception ever escapes. -/
def safe_json (r : Resp) : Option PyVal := r.body

/-- Embedding of the response handling part of sign (src/glados.py
lines 186 to 191), producing the translated_message text.  none models
an exception escaping sign: that happens only for a truthy non-object
body, where the attribute lookup of get raises, or for a truthy
non-string message value, where lower raises.  A falsy non-string
message value behaves exactly like an absent message in
translate_message and is modelled through the none message argument. -/
def sign_translated (status : ℕ) (decoded : Option PyVal) : Option String :=
  match decoded with
  | none => some ⟨"解析响应失败: HTTP ".data ++ natDigits status⟩
  | some v =>
    if !pyTruthy v then some ⟨"解析响应失败: HTTP ".data ++ natDigits status⟩
    else
      match v with
      | PyVal.dict kvs =>
        let pts : Option String :=
          match dictGet kvs "points" with
          | none => none
          | some PyVal.null => none
          | some w => some (pyRender w)
        match dictGet kvs "message" with
        | none => some (translate_message (some "") pts)
        | some (PyVal.str s) => some (translate_message (some s) pts)
        | some w =>
          if pyTruthy w then none else some (translate_message none pts)
      | _ => none

/-- Embedding of the report line sign returns (src/glados.py line 196):
the translated text prefixed by the bolded account email. -/
def sign_result (email : String) (status : ℕ) (decoded : Option PyVal) :
    Option String :=
  (sign_translated status decoded).map
    (fun t => "<b>" ++ email ++ "</b>: " ++ t)

/-- Python subscript lookup on a decoded JSON value, with the exception
text it raises: a missing key raises KeyError whose str form is the
quoted key; subscripting a non-object raises TypeError, whose exact
text is modelled by a fixed placeholder no claim examines. -/
def pySubscript (v : PyVal) (key : String) : Except String PyVal :=
  match v with
  | PyVal.dict kvs =>
    match dictGet kvs key with
    | some w => Except.ok w
    | none => Except.error ("'" ++ key ++ "'")
  | _ => Except.error "subscript on a non-mapping value"

/-- The float conversion format_days applies to the leftDays field when
that field is not already a string: an integer or boolean converts to
an integral float which format_days renders as a bare integer; other
values raise, with an exception text modelled by a placeholder no
claim examines. -/
def leftDaysStr : PyVal → Except String String
  | PyVal.str s =>
    match format_days s with
    | some r => Except.ok r
    | none => Except.error ("could not convert string to float: '" ++ s ++ "'")
  | PyVal.int n => Except.ok (intStr n)
  | PyVal.bool b => Except.ok (if b then "1" else "0")
  | _ => Except.error "float conversion failed"

/-- Embedding of the response handling part of check_account_status
(src/glados.py lines 144 to 152): a missing or falsy decoded body is
reported with the HTTP status code; otherwise the nested leftDays field
is read and formatted inside a try block whose except clause turns any
failure into a parse failure line carrying the exception text. -/
def check_account_status_result (email : String) (status : ℕ)
    (decoded : Option PyVal) : String :=
  let failLine : String :=
    "<b>" ++ email ++ "</b>: 解析响应失败 - HTTP " ++ (⟨natDigits status⟩ : String) ++ " ❌"
  match decoded with
  | none => failLine
  | some v =>
    if !pyTruthy v then failLine
    else
      match (do
        let d ← pySubscript v "data"
        let ld ← pySubscript d "leftDays"
        leftDaysStr ld : Except String String) with
      | Except.ok days => "<b>" ++ email ++ "</b>: 剩余 " ++ days ++ " 天 🗓️"
      | Except.error e => "<b>" ++ email ++ "</b>: 解析响应失败 - " ++ e ++ " ❌"

/-- Observable actions of one orchestrator run, in order: console
output, the check-in POST, the status GET, the inter-account sleep, and
the Telegram notification POST. -/
inductive Event where
  | console (line : String)
  | httpCheckin (email : String)
  | httpStatus (email : String)
  | sleepFor (secs : ℕ)
  | notify (botToken chatId : String)
deriving DecidableEq

/-- Environment oracle for one run: the transport outcome of the i-th
check-in and status requests (error models requests.RequestException
with its text), the value random.randint returns before account i, and
the rendered Beijing timestamp. -/
structure Oracle where
  checkinResp : ℕ → Except String Resp
  statusResp : ℕ → Except String Resp
  sleepDur : ℕ → ℕ
  now : String

/-- Trace and return value of sign (src/glados.py lines 155 to 196) for
the i-th account: one check-in POST always happens; a transport failure
is caught, logged with the email, and reported; otherwise the decoded
body is translated and logged with the literal em prefix the source
writes on line 194.  A none return models the exception that escapes
sign for a truthy non-object body, in which case the log line is never
printed. -/
def signRun (o : Oracle) (i : ℕ) (email : String) : List Event × Option String :=
  match o.checkinResp i with
  | Except.error e =>
    ([Event.httpCheckin email,
      Event.console (o.now ++ " " ++ email ++ ": 请求失败: " ++ e)],
     some ("<b>" ++ email ++ "</b>: 请求失败: " ++ e))
  | Except.ok r =>
    match sign_translated r.status r.body with
    | none => ([Event.httpCheckin email], none)
    | some t =>
      ([Event.httpCheckin email, Event.console (o.now ++ " em: " ++ t)],
       some ("<b>" ++ email ++ "</b>: " ++ t))

/-- Trace and return value of check_account_status (src/glados.py lines
136 to 152) for the i-th account: one status GET always happens and
every failure is caught and reported in the returned line. -/
def statusRun (o : Oracle) (i : ℕ) (email : String) : List Event × String :=
  match o.statusResp i with
  | Except.error e =>
    ([Event.httpStatus email],
     "<b>" ++ email ++ "</b>: 获取状态失败 - " ++ e ++ " ❌")
  | Except.ok r =>
    ([Event.httpStatus email], check_account_status_result email r.status r.body)

/-- Trace of the account loop of multi_account_sign (src/glados.py
lines 224 to 231), starting at oracle index i: for each account, the
check-in call, the status call, then one unconditional sleep, exactly
as the loop body executes them.  A none second component models an
exception escaping sign and aborting the whole run. -/
def runLoop (o : Oracle) : ℕ → List (String × String) →
    List Event × Option (List String × List String)
  | _, [] => ([], some ([], []))
  | i, (email, _cookie) :: rest =>
    let s := signRun o i email
    match s.2 with
    | none => (s.1, none)
    | some smsg =>
      let st := statusRun o i email
      let rst := runLoop o (i + 1) rest
      (s.1 ++ st.1 ++ [Event.sleepFor (o.sleepDur i)] ++ rst.1,
       rst.2.map (fun p => (smsg :: p.1, st.2 :: p.2)))

/-- Console line printed when no account is configured (src/glados.py
line 218). -/
def noAccountsLine : String := "未找到账号信息，请检查环境变量或 .env 文件"

/-- Console line printed when the Telegram configuration is missing
(src/glados.py line 222). -/
def noNotifyLine : String :=
  "未设置 TG_BOT_TOKEN / TG_CHAT_ID，将只在控制台输出，不发送 Telegram 通知"

/-- Python truthiness of an optional environment string: unset and
empty are falsy. -/
def truthyOptS (o : Option String) : Bool :=
  match o with
  | none => false
  | some s => !s.isEmpty

/-- Trace of multi_account_sign (src/glados.py lines 199 to 234) after
the account collection loop: with no accounts, one console line and an
early return; otherwise an optional missing-configuration console line,
the account loop, and one notification POST when both Telegram settings
are truthy and no exception aborted the loop. -/
def multi_account_sign_run (o : Oracle) (botToken chatId : Option String)
    (accounts : List (String × String)) : List Event :=
  if accounts.isEmpty then [Event.console noAccountsLine]
  else
    (if !(truthyOptS botToken && truthyOptS chatId) then [Event.console noNotifyLine] else [])
    ++ (let lp := runLoop o 1 accounts
        lp.1 ++
          match lp.2 with
          | none => []
          | some _ =>
            if truthyOptS botToken && truthyOptS chatId then
              [Event.notify (botToken.getD "") (chatId.getD "")]
            else [])

/-- Sleep event test. -/
def isSleepEv : Event → Bool
  | Event.sleepFor _ => true
  | _ => false

/-- HTTP request event test (check-in or status; the notification POST
is a separate event kind). -/
def isHttpEv : Event → Bool
  | Event.httpCheckin _ => true
  | Event.httpStatus _ => true
  | _ => false

/-- Console output event test. -/
def isConsoleEv : Event → Bool
  | Event.console _ => true
  | _ => false

/-- Notification event test. -/
def isNotifyEv : Event → Bool
  | Event.notify _ _ => true
  | _ => false

/-- Number of trace events satisfying a test. -/
def countEv (p : Event → Bool) (tr : List Event) : ℕ := (tr.filter p).length

/-- Fixed deterministic oracle used for concrete end-to-end checks: a
successful check-in response and a successful status response for every
account, and a constant sleep duration. -/
def demoOracle : Oracle :=
  { checkinResp := fun _ => Except.ok
      { status := 200
        body := some (PyVal.dict [("message", PyVal.str "Got 1 Points")]) }
    statusResp := fun _ => Except.ok
      { status := 200
        body := some (PyVal.dict [("data", PyVal.dict [("leftDays", PyVal.str "3.5")])]) }
    sleepDur := fun _ => 9
    now := "2026-10-12 08:00" }

/-- A separator whose first character occurs nowhere else in it; both
markers of the points extraction have this shape, which rules out
occurrences of the separator straddling a segment boundary. -/
def headOnlyAtZero : Chars → Bool
  | [] => true
  | c :: cs => !(cs.contains c)

/-!
Helper lemmas about the embedded string operations.
-/

theorem isPrefixOf_self_append (l t : Chars) : l.isPrefixOf (l ++ t) = true := by
  induction l with
  | nil => simp [List.isPrefixOf]
  | cons c cs ih => simp [List.isPrefixOf, ih]

theorem isPrefixOf_exists_append :
    ∀ l₁ l₂ : Chars, l₁.isPrefixOf l₂ = true → ∃ t, l₁ ++ t = l₂
  | [], l₂, _ => ⟨l₂, rfl⟩
  | c :: cs, [], h => by simp [List.isPrefixOf] at h
  | c :: cs, d :: ds, h => by
    simp only [List.isPrefixOf, Bool.and_eq_true, beq_iff_eq] at h
    obtain ⟨rfl, h2⟩ := h
    obtain ⟨t, ht⟩ := isPrefixOf_exists_append cs ds h2
    exact ⟨t, by simp [ht]⟩

theorem append_ne_of_not_isPrefixOf {l₁ l₂ : Chars}
    (h : l₁.isPrefixOf l₂ = false) (t : Chars) : l₁ ++ t ≠ l₂ := by
  intro he
  rw [← he, isPrefixOf_self_append] at h
  cases h

theorem occursIn_of_isPrefixOf {sep l : Chars} (h : sep.isPrefixOf l = true) :
    occursIn sep l = true := by
  cases l with
  | nil =>
    cases sep with
    | nil => rfl
    | cons c cs => simp [List.isPrefixOf] at h
  | cons c rest => simp [occursIn, h]

theorem occursIn_append_right (a : Chars) {sep l : Chars}
    (h : occursIn sep l = true) : occursIn sep (a ++ l) = true := by
  induction a with
  | nil => simpa
  | cons c cs ih => simp [occursIn, ih]

theorem occursIn_middle (a sep b : Chars) : occursIn sep (a ++ sep ++ b) = true := by
  rw [List.append_assoc]
  exact occursIn_append_right a
    (occursIn_of_isPrefixOf (isPrefixOf_self_append sep b))

theorem occursIn_cons_false {sep : Chars} {c : Char} {rest : Chars}
    (h : occursIn sep (c :: rest) = false) :
    sep.isPrefixOf (c :: rest) = false ∧ occursIn sep rest = false := by
  simpa [occursIn] using h

theorem splitOnFuel_nil (sep : Chars) (fuel : ℕ) :
    splitOnFuel sep fuel [] = [[]] := by
  cases fuel <;> rfl

theorem splitOnFuel_congr {sep : Chars} :
    ∀ fuel₁ fuel₂ : ℕ, ∀ l : Chars, l.length ≤ fuel₁ → l.length ≤ fuel₂ →
      splitOnFuel sep fuel₁ l = splitOnFuel sep fuel₂ l := by
  intro fuel₁
  induction fuel₁ with
  | zero =>
    intro fuel₂ l h1 h2
    have hl : l = [] := List.eq_nil_of_length_eq_zero (Nat.le_zero.mp h1)
    subst hl
    rw [splitOnFuel_nil, splitOnFuel_nil]
  | succ n ih =>
    intro fuel₂ l h1 h2
    cases l with
    | nil => rw [splitOnFuel_nil, splitOnFuel_nil]
    | cons c rest =>
      cases fuel₂ with
      | zero => simp at h2
      | succ m =>
        simp only [splitOnFuel]
        by_cases hse : sep.isEmpty
        · simp [hse]
        · have hsep : sep ≠ [] := by
            intro hs
            simp [hs] at hse
          have hslen : 1 ≤ sep.length := List.length_pos.mpr hsep
          simp only [List.length_cons] at h1 h2
          by_cases hp : sep.isPrefixOf (c :: rest)
          · simp only [hse, hp, if_true, if_false, Bool.false_eq_true]
            have hd : (List.drop sep.length (c :: rest)).length ≤ n := by
              simp only [List.length_drop, List.length_cons]
              omega
            have hd2 : (List.drop sep.length (c :: rest)).length ≤ m := by
              simp only [List.length_drop, List.length_cons]
              omega
            rw [ih m (List.drop sep.length (c :: rest)) hd hd2]
          · simp only [hse, hp, if_false, Bool.false_eq_true]
            rw [ih m rest (by omega) (by omega)]

theorem splitOnL_nil (sep : Chars) : splitOnL sep [] = [[]] := rfl

theorem splitOnL_pos {sep : Chars} {c : Char} {rest : Chars}
    (hp : sep.isPrefixOf (c :: rest) = true) (hne : sep ≠ []) :
    splitOnL sep (c :: rest) =
      [] :: splitOnL sep (List.drop sep.length (c :: rest)) := by
  have hse : sep.isEmpty = false := by
    cases sep with
    | nil => exact absurd rfl hne
    | cons s st => rfl
  have hslen : 1 ≤ sep.length := List.length_pos.mpr hne
  unfold splitOnL
  simp only [List.length_cons, splitOnFuel, hse, hp, if_true, if_false,
    Bool.false_eq_true]
  congr 1
  apply splitOnFuel_congr
  · simp only [List.length_drop, List.length_cons]
    omega
  · exact le_refl _

theorem splitOnL_neg {sep : Chars} {c : Char} {rest : Chars}
    (hp : sep.isPrefixOf (c :: rest) = false) :
    splitOnL sep (c :: rest) =
      match splitOnL sep rest with
      | [] => [[c]]
      | s :: ss => (c :: s) :: ss := by
  have hne : sep ≠ [] := by
    intro hs
    subst hs
    simp [List.isPrefixOf] at hp
  have hse : sep.isEmpty = false := by
    cases sep with
    | nil => exact absurd rfl hne
    | cons s st => rfl
  unfold splitOnL
  simp only [List.length_cons, splitOnFuel, hse, hp, if_false, Bool.false_eq_true]

theorem splitOnL_ne_nil (sep l : Chars) : splitOnL sep l ≠ [] := by
  cases l with
  | nil => simp [splitOnL_nil]
  | cons c rest =>
    by_cases hne : sep = []
    · subst hne
      unfold splitOnL
      simp only [splitOnFuel, List.length_cons, List.isEmpty_nil, if_true]
      simp
    · by_cases hp : sep.isPrefixOf (c :: rest)
      · rw [splitOnL_pos hp hne]
        simp
      · rw [splitOnL_neg (Bool.eq_false_iff.mpr hp)]
        cases splitOnL sep rest <;> simp

theorem splitOnL_of_not_occurs {sep : Chars} (hne : sep ≠ []) :
    ∀ l : Chars, occursIn sep l = false → splitOnL sep l = [l] := by
  intro l
  induction l with
  | nil => intro _; rfl
  | cons c rest ih =>
    intro h
    obtain ⟨hp, ho⟩ := occursIn_cons_false h
    rw [splitOnL_neg hp, ih ho]

theorem prefix_cross_boundary {sep pre rest : Chars} (hne : sep ≠ [])
    (hhead : headOnlyAtZero sep = true) (hpre : occursIn sep pre = false)
    (hp : sep.isPrefixOf (pre ++ sep ++ rest) = true) : pre = [] := by
  obtain ⟨t, ht⟩ := isPrefixOf_exists_append _ _ hp
  rw [List.append_assoc] at ht
  rcases List.append_eq_append_iff.mp ht with ⟨e, he1, _⟩ | ⟨f, hf1, hf2⟩
  · exfalso
    have hocc : occursIn sep pre = true := by
      rw [he1]
      exact occursIn_of_isPrefixOf (isPrefixOf_self_append sep e)
    rw [hocc] at hpre
    cases hpre
  · cases pre with
    | nil => rfl
    | cons p pt =>
      exfalso
      cases f with
      | nil =>
        rw [List.append_nil] at hf1
        have hocc : occursIn sep (p :: pt) = true := by
          rw [hf1]
          refine occursIn_of_isPrefixOf ?_
          have h0 := isPrefixOf_self_append (p :: pt) []
          rw [List.append_nil] at h0
          exact h0
        rw [hocc] at hpre
        cases hpre
      | cons d dt =>
        have hd : p = d := by
          have hh := congrArg List.head? hf2
          rw [hf1] at hh
          simpa using hh
        rw [hf1] at hhead
        simp only [List.cons_append, headOnlyAtZero, Bool.not_eq_true',
          Bool.not_eq_true] at hhead
        have hmem : p ∈ pt ++ d :: dt := by
          rw [hd]
          exact List.mem_append_right pt (List.mem_cons_self d dt)
        have helem : List.elem p (pt ++ d :: dt) = true := List.elem_iff.mpr hmem
        simp only [List.contains] at hhead
        rw [helem] at hhead
        cases hhead

theorem splitOnL_boundary {sep : Chars} (hne : sep ≠ [])
    (hhead : headOnlyAtZero sep = true) :
    ∀ pre rest : Chars, occursIn sep pre = false →
      splitOnL sep (pre ++ sep ++ rest) = pre :: splitOnL sep rest := by
  intro pre
  induction pre with
  | nil =>
    intro rest _
    rw [List.nil_append]
    cases hs : sep with
    | nil => exact absurd hs hne
    | cons s st =>
      subst hs
      have hp : (s :: st).isPrefixOf ((s :: st) ++ rest) = true :=
        isPrefixOf_self_append (s :: st) rest
      rw [List.cons_append] at hp
      rw [List.cons_append, splitOnL_pos hp (by simp)]
      congr 1
      have hdrop : List.drop (s :: st).length (s :: (st ++ rest)) = rest := by
        rw [← List.cons_append]
        exact List.drop_left (s :: st) rest
      rw [hdrop]
  | cons p pt ih =>
    intro rest h
    obtain ⟨hp0, ho⟩ := occursIn_cons_false h
    have hcross : sep.isPrefixOf ((p :: pt) ++ sep ++ rest) = false := by
      by_contra hc
      simp only [Bool.not_eq_false] at hc
      have := prefix_cross_boundary hne hhead h hc
      cases this
    have heq : (p :: pt) ++ sep ++ rest = p :: (pt ++ sep ++ rest) := by simp
    rw [heq] at hcross
    rw [heq, splitOnL_neg hcross, ih rest ho]

theorem two_le_splitOnL_length {sep : Chars} (hne : sep ≠ []) :
    ∀ l : Chars, occursIn sep l = true → 2 ≤ (splitOnL sep l).length := by
  intro l
  induction l with
  | nil =>
    intro h
    have hse : sep.isEmpty = false := by
      cases sep with
      | nil => exact absurd rfl hne
      | cons s st => rfl
    simp [occursIn, hse] at h
  | cons c rest ih =>
    intro h
    by_cases hp : sep.isPrefixOf (c :: rest)
    · rw [splitOnL_pos hp hne]
      have hnn := splitOnL_ne_nil sep (List.drop sep.length (c :: rest))
      have : 1 ≤ (splitOnL sep (List.drop sep.length (c :: rest))).length :=
        List.length_pos.mpr hnn
      simp only [List.length_cons]
      omega
    · have hp' : sep.isPrefixOf (c :: rest) = false := Bool.eq_false_iff.mpr hp
      have ho : occursIn sep rest = true := by
        simp only [occursIn, hp', Bool.false_or] at h
        exact h
      rw [splitOnL_neg hp']
      have h2 := ih ho
      cases hsp : splitOnL sep rest with
      | nil => exact absurd hsp (splitOnL_ne_nil sep rest)
      | cons s ss =>
        rw [hsp] at h2
        simpa using h2

theorem extractPointsL_eq_none_iff (msg : Chars) :
    extractPointsL msg = none ↔ occursIn gotMarker msg = false := by
  have hne : gotMarker ≠ [] := by decide
  constructor
  · intro h
    by_contra hocc
    simp only [Bool.not_eq_false] at hocc
    have h2 := two_le_splitOnL_length hne msg hocc
    unfold extractPointsL at h
    cases hg : (splitOnL gotMarker msg).get? 1 with
    | none =>
      rw [List.get?_eq_none] at hg
      omega
    | some seg => rw [hg] at h; cases h
  · intro h
    unfold extractPointsL
    rw [splitOnL_of_not_occurs hne msg h]
    rfl

theorem extractPointsL_structured {pre mid suf : Chars}
    (hpre : occursIn gotMarker pre = false)
    (hmid : occursIn gotMarker (mid ++ pointsMarker ++ suf) = false)
    (hmp : occursIn pointsMarker mid = false) :
    extractPointsL (pre ++ gotMarker ++ (mid ++ pointsMarker ++ suf)) = some mid := by
  have hne : gotMarker ≠ [] := by decide
  have hhead : headOnlyAtZero gotMarker = true := by decide
  have hneP : pointsMarker ≠ [] := by decide
  have hheadP : headOnlyAtZero pointsMarker = true := by decide
  unfold extractPointsL
  rw [splitOnL_boundary hne hhead pre (mid ++ pointsMarker ++ suf) hpre]
  rw [splitOnL_of_not_occurs hne (mid ++ pointsMarker ++ suf) hmid]
  simp only [List.get?]
  rw [splitOnL_boundary hneP hheadP mid suf hmp]
  rfl

theorem extractPointsL_to_end {pre mid : Chars}
    (hpre : occursIn gotMarker pre = false)
    (hmid : occursIn gotMarker mid = false)
    (hmp : occursIn pointsMarker mid = false) :
    extractPointsL (pre ++ gotMarker ++ mid) = some mid := by
  have hne : gotMarker ≠ [] := by decide
  have hhead : headOnlyAtZero gotMarker = true := by decide
  have hneP : pointsMarker ≠ [] := by decide
  unfold extractPointsL
  rw [splitOnL_boundary hne hhead pre mid hpre]
  rw [splitOnL_of_not_occurs hne mid hmid]
  simp only [List.get?]
  rw [splitOnL_of_not_occurs hneP mid hmp]
  rfl

theorem got_ne_tomorrow {m : Chars} (h : occursIn "got".data (lowerL m) = true) :
    m ≠ "Please Try Tomorrow".data := by
  intro hm
  subst hm
  have hf : occursIn "got".data (lowerL "Please Try Tomorrow".data) = false := by decide
  rw [hf] at h
  cases h

theorem repeat_already_ne_tomorrow {m : Chars}
    (h : (occursIn "repeat".data (lowerL m) || occursIn "already".data (lowerL m)) = true) :
    m ≠ "Please Try Tomorrow".data := by
  intro hm
  subst hm
  have hf : (occursIn "repeat".data (lowerL "Please Try Tomorrow".data) ||
      occursIn "already".data (lowerL "Please Try Tomorrow".data)) = false := by decide
  rw [hf] at h
  cases h

theorem translateL_got_points {m p : Chars}
    (hgot : occursIn "got".data (lowerL m) = true) :
    translateMessageL (some m) (some p) =
      "签到成功，获得".data ++ p ++ "积分 🎉".data := by
  have hm := got_ne_tomorrow hgot
  have hc1 : ((some m : Option Chars) == some "Please Try Tomorrow".data) = false := by
    simp [hm]
  unfold translateMessageL
  rw [hc1]
  simp only [Bool.false_eq_true, if_false, Option.getD_some]
  rw [hgot]
  simp

theorem translateL_got_extract {m p : Chars}
    (hgot : occursIn "got".data (lowerL m) = true)
    (hex : extractPointsL m = some p) :
    translateMessageL (some m) none =
      "签到成功，获得".data ++ p ++ "积分 🎉".data := by
  have hm := got_ne_tomorrow hgot
  have hc1 : ((some m : Option Chars) == some "Please Try Tomorrow".data) = false := by
    simp [hm]
  unfold translateMessageL
  rw [hc1]
  simp only [Bool.false_eq_true, if_false, Option.getD_some]
  rw [hgot]
  simp only [if_true]
  rw [hex]

theorem translateL_got_no_extract {m : Chars}
    (hgot : occursIn "got".data (lowerL m) = true)
    (hex : extractPointsL m = none) :
    translateMessageL (some m) none =
      "签到成功 🎉 (".data ++ m ++ ")".data := by
  have hm := got_ne_tomorrow hgot
  have hc1 : ((some m : Option Chars) == some "Please Try Tomorrow".data) = false := by
    simp [hm]
  unfold translateMessageL
  rw [hc1]
  simp only [Bool.false_eq_true, if_false, Option.getD_some]
  rw [hgot]
  simp only [if_true]
  rw [hex]

theorem translateL_not_got_unknown {m : Chars}
    (hm : m ≠ "Please Try Tomorrow".data)
    (hgot : occursIn "got".data (lowerL m) = false)
    (hra : (occursIn "repeat".data (lowerL m) || occursIn "already".data (lowerL m)) = false)
    (hne : m ≠ []) :
    ∀ pts : Option Chars,
      translateMessageL (some m) pts = "未知的签到结果: ".data ++ m ++ " ❓".data := by
  intro pts
  have hc1 : ((some m : Option Chars) == some "Please Try Tomorrow".data) = false := by
    simp [hm]
  have htr : truthyOptStr (some m) = true := by
    simp [truthyOptStr, hne]
  unfold translateMessageL
  rw [hc1]
  simp only [Bool.false_eq_true, if_false, Option.getD_some]
  rw [hgot, hra, htr]
  simp

theorem translateL_repeat {m : Chars}
    (hm : m ≠ "Please Try Tomorrow".data)
    (hgot : occursIn "got".data (lowerL m) = false)
    (hra : (occursIn "repeat".data (lowerL m) || occursIn "already".data (lowerL m)) = true) :
    ∀ pts : Option Chars,
      translateMessageL (some m) pts = "重复签到，请明天再试 🔁".data := by
  intro pts
  have hc1 : ((some m : Option Chars) == some "Please Try Tomorrow".data) = false := by
    simp [hm]
  unfold translateMessageL
  rw [hc1]
  simp only [Bool.false_eq_true, if_false, Option.getD_some]
  rw [hgot, hra]
  simp

theorem translateL_none (pts : Option Chars) :
    translateMessageL none pts = "未知的签到结果: (empty message) ❓".data := rfl

theorem translateL_empty (pts : Option Chars) :
    translateMessageL (some []) pts = "未知的签到结果: (empty message) ❓".data := rfl

theorem stringMk_eq_iff (l : Chars) (s : String) : (⟨l⟩ : String) = s ↔ l = s.data :=
  ⟨fun h => congrArg String.data h, fun h => String.ext h⟩

theorem translateL_cases (m : Chars) (pts : Option Chars) :
    (∃ p, translateMessageL (some m) pts = "签到成功，获得".data ++ p ++ "积分 🎉".data) ∨
    translateMessageL (some m) pts = "签到成功 🎉 (".data ++ m ++ ")".data ∨
    translateMessageL (some m) pts = "重复签到，请明天再试 🔁".data ∨
    (m ≠ [] ∧ translateMessageL (some m) pts = "未知的签到结果: ".data ++ m ++ " ❓".data) ∨
    (m = [] ∧ translateMessageL (some m) pts = "未知的签到结果: (empty message) ❓".data) ∨
    (m = "Please Try Tomorrow".data ∧
      translateMessageL (some m) pts = "签到失败，请明天再试 🤖".data) := by
  by_cases hlit : m = "Please Try Tomorrow".data
  · refine Or.inr (Or.inr (Or.inr (Or.inr (Or.inr ⟨hlit, ?_⟩))))
    subst hlit
    rfl
  · by_cases hgot : occursIn "got".data (lowerL m) = true
    · cases pts with
      | some p => exact Or.inl ⟨p, translateL_got_points hgot⟩
      | none =>
        cases hex : extractPointsL m with
        | some p => exact Or.inl ⟨p, translateL_got_extract hgot hex⟩
        | none => exact Or.inr (Or.inl (translateL_got_no_extract hgot hex))
    · have hgot' : occursIn "got".data (lowerL m) = false :=
        Bool.eq_false_iff.mpr hgot
      by_cases hra : (occursIn "repeat".data (lowerL m) ||
          occursIn "already".data (lowerL m)) = true
      · exact Or.inr (Or.inr (Or.inl (translateL_repeat hlit hgot' hra pts)))
      · have hra' := Bool.eq_false_iff.mpr hra
        by_cases hm0 : m = []
        · subst hm0
          exact Or.inr (Or.inr (Or.inr (Or.inr (Or.inl ⟨rfl, translateL_empty pts⟩))))
        · exact Or.inr (Or.inr (Or.inr (Or.inl
            ⟨hm0, translateL_not_got_unknown hlit hgot' hra' hm0 pts⟩)))

theorem append3_ne_of_not_isPrefixOf {pre target : Chars}
    (h : pre.isPrefixOf target = false) (x suf : Chars) :
    pre ++ x ++ suf ≠ target := by
  rw [List.append_assoc]
  exact append_ne_of_not_isPrefixOf h (x ++ suf)

theorem translateL_eq_retry_iff (m : Chars) (pts : Option Chars) :
    translateMessageL (some m) pts = "签到失败，请明天再试 🤖".data ↔
      m = "Please Try Tomorrow".data := by
  constructor
  · intro h
    rcases translateL_cases m pts with ⟨p, h2⟩ | h2 | h2 | ⟨_, h2⟩ | ⟨_, h2⟩ | ⟨hm, _⟩
    · rw [h2] at h
      exact absurd h (append3_ne_of_not_isPrefixOf (by decide) p "积分 🎉".data)
    · rw [h2] at h
      exact absurd h (append3_ne_of_not_isPrefixOf (by decide) m ")".data)
    · rw [h2] at h
      exact absurd h (by decide)
    · rw [h2] at h
      exact absurd h (append3_ne_of_not_isPrefixOf (by decide) m " ❓".data)
    · rw [h2] at h
      exact absurd h (by decide)
    · exact hm
  · intro h
    subst h
    rfl

theorem translateL_eq_placeholder_iff (m : Chars) :
    translateMessageL (some m) none = "未知的签到结果: (empty message) ❓".data ↔
      (m = [] ∨ m = "(empty message)".data) := by
  constructor
  · intro h
    rcases translateL_cases m none with ⟨p, h2⟩ | h2 | h2 | ⟨_, h2⟩ | ⟨hm, _⟩ | ⟨hm, h2⟩
    · rw [h2] at h
      exact absurd h (append3_ne_of_not_isPrefixOf (by decide) p "积分 🎉".data)
    · rw [h2] at h
      exact absurd h (append3_ne_of_not_isPrefixOf (by decide) m ")".data)
    · rw [h2] at h
      exact absurd h (by decide)
    · rw [h2] at h
      have hdec : "未知的签到结果: (empty message) ❓".data =
          "未知的签到结果: ".data ++ "(empty message)".data ++ " ❓".data := by decide
      rw [hdec, List.append_assoc, List.append_assoc] at h
      have h3 := List.append_cancel_left h
      have h4 := List.append_cancel_right h3
      exact Or.inr h4
    · exact Or.inl hm
    · rw [h2] at h
      exact absurd h (by decide)
  · intro h
    rcases h with h | h
    · subst h
      rfl
    · subst h
      decide

/-- C2 (counterexample): a message that strictly contains the literal
Please Try Tomorrow with surrounding text does not translate to the
RetryTomorrow outcome text; it falls through to the unknown-result
branch. -/
theorem c2_counterexample :
    occursIn "Please Try Tomorrow".data "x Please Try Tomorrow".data = true ∧
    translate_message (some "x Please Try Tomorrow") none ≠ "签到失败，请明天再试 🤖" := by
  exact ⟨by decide, by decide⟩

/-- C2 (amended): translate_message yields the RetryTomorrow outcome
text exactly for the message equal to the literal Please Try Tomorrow,
for every points argument; a message that merely contains the literal
does not. -/
theorem c2_retry_only_exact (m : Option String) (p : Option String) :
    translate_message m p = "签到失败，请明天再试 🤖" ↔ m = some "Please Try Tomorrow" := by
  cases m with
  | none =>
    constructor
    · intro h
      have h0 : translate_message none p = "未知的签到结果: (empty message) ❓" := by
        unfold translate_message
        rw [stringMk_eq_iff]
        exact translateL_none _
      rw [h0] at h
      exact absurd h (by decide)
    · intro h
      cases h
  | some s =>
    constructor
    · intro h
      have hl : translateMessageL (some s.data) (p.map String.data) =
          "签到失败，请明天再试 🤖".data := congrArg String.data h
      have hs := (translateL_eq_retry_iff s.data (p.map String.data)).mp hl
      exact congrArg some (String.ext hs)
    · intro h
      have hs : s = "Please Try Tomorrow" := by
        injection h
      subst hs
      rfl

/-- C3 (counterexample): the non-empty real server message equal to the
text (empty message) translates to exactly the same output as the empty
message, so the empty-message placeholder output is not distinguishable
from the translation of every non-empty message. -/
theorem c3_counterexample :
    translate_message (some "(empty message)") none = translate_message (some "") none ∧
    ("(empty message)" : String) ≠ "" := by
  exact ⟨by decide, by decide⟩

/-- C3 (amended): the empty message and the absent message both
translate to the fixed placeholder output, and that output coincides
with the translation of a non-empty message exactly for the single
message (empty message); every other non-empty message translates to
something different. -/
theorem c3_placeholder_characterization :
    translate_message none none = "未知的签到结果: (empty message) ❓" ∧
    translate_message (some "") none = "未知的签到结果: (empty message) ❓" ∧
    ∀ m : String,
      (translate_message (some m) none = "未知的签到结果: (empty message) ❓" ↔
        (m = "" ∨ m = "(empty message)")) := by
  refine ⟨rfl, rfl, ?_⟩
  intro m
  constructor
  · intro h
    have hl : translateMessageL (some m.data) none =
        "未知的签到结果: (empty message) ❓".data := congrArg String.data h
    rcases (translateL_eq_placeholder_iff m.data).mp hl with h2 | h2
    · exact Or.inl (String.ext h2)
    · exact Or.inr (String.ext h2)
  · intro h
    rcases h with h | h
    · subst h
      rfl
    · subst h
      decide

theorem got_lower_of_marker (a b : Chars) :
    occursIn "got".data (lowerL (a ++ gotMarker ++ b)) = true := by
  have h1 : lowerL (a ++ gotMarker ++ b) =
      lowerL a ++ ("got".data ++ (' ' :: lowerL b)) := by
    unfold lowerL
    rw [List.map_append, List.map_append]
    rw [(by decide : List.map Char.toLower gotMarker = "got ".data)]
    rw [List.append_assoc]
    rfl
  rw [h1]
  exact occursIn_append_right _
    (occursIn_of_isPrefixOf (isPrefixOf_self_append "got".data (' ' :: lowerL b)))

/-- C4 (confirmed): every message whose lowercase form contains got,
together with an explicitly supplied points value, translates to the
Success output carrying exactly that supplied value; any number inside
the message text itself is ignored. -/
theorem c4_success_explicit_points (m p : String)
    (h : occursIn "got".data (lowerL m.data) = true) :
    translate_message (some m) (some p) = "签到成功，获得" ++ p ++ "积分 🎉" := by
  unfold translate_message
  rw [stringMk_eq_iff, String.data_append, String.data_append]
  exact translateL_got_points h

/-- C4 witness: a message with the embedded number 5 still carries the
supplied value 99. -/
theorem c4_witness :
    occursIn "got".data (lowerL "You Got 5 Points".data) = true ∧
    translate_message (some "You Got 5 Points") (some "99") = "签到成功，获得99积分 🎉" :=
  ⟨by decide, c4_success_explicit_points "You Got 5 Points" "99" (by decide)⟩

/-- C5 (confirmed): a message of the shape pre Got n Points suf, in
which the Got marker does not occur spuriously in pre or later and the
Points marker does not occur inside n, translates with no supplied
points to the Success output carrying exactly n; and whenever the
extraction fails, which happens exactly when the case-sensitive Got
marker is absent, the Success output carries no points value and shows
the message verbatim. -/
theorem c5_extracts_points_between_markers (pre n suf : String)
    (hpre : occursIn gotMarker pre.data = false)
    (hrest : occursIn gotMarker (n.data ++ pointsMarker ++ suf.data) = false)
    (hn : occursIn pointsMarker n.data = false) :
    translate_message (some (pre ++ "Got " ++ n ++ " Points" ++ suf)) none =
      "签到成功，获得" ++ n ++ "积分 🎉" ∧
    ∀ m : String, occursIn "got".data (lowerL m.data) = true →
      occursIn gotMarker m.data = false →
      translate_message (some m) none = "签到成功 🎉 (" ++ m ++ ")" := by
  constructor
  · have hdata : (pre ++ "Got " ++ n ++ " Points" ++ suf).data =
        pre.data ++ gotMarker ++ (n.data ++ pointsMarker ++ suf.data) := by
      simp only [String.data_append, gotMarker, pointsMarker, List.append_assoc]
    unfold translate_message
    rw [stringMk_eq_iff]
    simp only [Option.map_some', Option.map_none']
    rw [hdata, String.data_append, String.data_append]
    exact translateL_got_extract
      (got_lower_of_marker pre.data (n.data ++ pointsMarker ++ suf.data))
      (extractPointsL_structured hpre hrest hn)
  · intro m hg hm
    unfold translate_message
    rw [stringMk_eq_iff]
    simp only [Option.map_some', Option.map_none']
    rw [String.data_append, String.data_append]
    exact translateL_got_no_extract hg ((extractPointsL_eq_none_iff m.data).mpr hm)

/-- C5 witness: concrete instantiation with pre, n and suf, and a
concrete lower-case message for the failed-extraction clause. -/
theorem c5_witness :
    occursIn gotMarker "Checkin! ".data = false ∧
    occursIn gotMarker ("10".data ++ pointsMarker ++ "".data) = false ∧
    occursIn pointsMarker "10".data = false ∧
    translate_message (some "Checkin! Got 10 Points") none = "签到成功，获得10积分 🎉" ∧
    translate_message (some "got 5 points") none = "签到成功 🎉 (got 5 points)" := by
  have h := c5_extracts_points_between_markers "Checkin! " "10" ""
    (by decide) (by decide) (by decide)
  exact ⟨by decide, by decide, by decide, h.1, h.2 "got 5 points" (by decide) (by decide)⟩

/-- C10 (counterexample): in a message where a second Got marker stands
between the first Got marker and the Points marker, the extraction does
not return the whole text between the first Got marker and the Points
marker; it stops at the second Got marker. -/
theorem c10_counterexample :
    "Got xGot y Points".data = "Got ".data ++ "xGot y".data ++ " Points".data ∧
    extractPointsL "Got xGot y Points".data = some "x".data ∧
    some "x".data ≠ some "xGot y".data := by
  exact ⟨by decide, by decide, by decide⟩

/-- C10 (amended): the extraction fails exactly when the case-sensitive
Got marker is absent from the message; when the marker is present, the
extraction returns the segment after the first Got marker truncated at
the next Got marker and at the first Points marker, to the end of the
message when neither later marker occurs, with no numericness check on
the extracted text. -/
theorem c10_extraction_behavior :
    (∀ msg : String, extractPointsL msg.data = none ↔
      occursIn gotMarker msg.data = false) ∧
    (∀ pre mid : String, occursIn gotMarker pre.data = false →
      occursIn gotMarker mid.data = false →
      occursIn pointsMarker mid.data = false →
      extractPointsL (pre ++ "Got " ++ mid).data = some mid.data) := by
  constructor
  · intro msg
    exact extractPointsL_eq_none_iff msg.data
  · intro pre mid h1 h2 h3
    have hdata : (pre ++ "Got " ++ mid).data = pre.data ++ gotMarker ++ mid.data := by
      simp only [String.data_append, gotMarker, List.append_assoc]
    rw [hdata]
    exact extractPointsL_to_end h1 h2 h3

/-- C10 witness: extraction of a non-numeric segment with no Points
marker present, running to the end of the message. -/
theorem c10_witness :
    extractPointsL ("say " ++ "Got " ++ "much wow").data = some "much wow".data :=
  c10_extraction_behavior.2 "say " "much wow" (by decide) (by decide) (by decide)

theorem occursIn_self (sep : Chars) : occursIn sep sep = true := by
  have h := isPrefixOf_self_append sep []
  rw [List.append_nil] at h
  exact occursIn_of_isPrefixOf h

/-- C7 (confirmed): with an empty account list the orchestrator run
consists of exactly one console line saying no accounts were found;
it issues no HTTP call and never reaches the notification sink. -/
theorem c7_no_accounts (o : Oracle) (botToken chatId : Option String) :
    multi_account_sign_run o botToken chatId [] = [Event.console noAccountsLine] ∧
    countEv isConsoleEv (multi_account_sign_run o botToken chatId []) = 1 ∧
    countEv isHttpEv (multi_account_sign_run o botToken chatId []) = 0 ∧
    countEv isNotifyEv (multi_account_sign_run o botToken chatId []) = 0 := by
  exact ⟨rfl, rfl, rfl, rfl⟩

/-- C8 (confirmed): a check-in response whose body is not valid JSON
makes sign return the decode failure line, which carries the decimal
rendering of the HTTP status code as a substring; the result is always
present, so no exception escapes, and safe_json signals the failure to
its caller purely by the absence of data. -/
theorem c8_decode_failure_line (email : String) (status : ℕ) :
    sign_result email status none =
      some ("<b>" ++ email ++ "</b>: 解析响应失败: HTTP " ++ (⟨natDigits status⟩ : String)) ∧
    (sign_result email status none).isSome = true ∧
    occursIn (natDigits status)
      ("<b>" ++ email ++ "</b>: 解析响应失败: HTTP " ++ (⟨natDigits status⟩ : String)).data
      = true ∧
    safe_json { status := status, body := none } = none := by
  have h1 : sign_result email status none =
      some ("<b>" ++ email ++ "</b>: 解析响应失败: HTTP " ++ (⟨natDigits status⟩ : String)) := by
    unfold sign_result sign_translated
    simp only [Option.map_some']
    congr 1
    apply String.ext
    simp [String.data_append, List.append_assoc]
  refine ⟨h1, by rw [h1]; rfl, ?_, rfl⟩
  have hdata : ("<b>" ++ email ++ "</b>: 解析响应失败: HTTP " ++
      (⟨natDigits status⟩ : String)).data =
      ("<b>" ++ email ++ "</b>: 解析响应失败: HTTP ").data ++ natDigits status := by
    simp [String.data_append]
  rw [hdata]
  exact occursIn_append_right _ (occursIn_self (natDigits status))

/-- C9 (confirmed): a body that decodes to a falsy JSON value is
reported by both the check-in path and the status path exactly as a
body that fails to decode at all, because both callers test the decoded
payload for truthiness. -/
theorem c9_falsy_indistinguishable (email : String) (status : ℕ) (v : PyVal)
    (h : pyTruthy v = false) :
    sign_result email status (some v) = sign_result email status none ∧
    check_account_status_result email status (some v) =
      check_account_status_result email status none := by
  constructor
  · unfold sign_result sign_translated
    simp [h]
  · unfold check_account_status_result
    simp [h]

/-- C9 witness: the empty JSON object is falsy and indistinguishable
from a malformed body on both paths. -/
theorem c9_witness :
    pyTruthy (PyVal.dict []) = false ∧
    (sign_result "e@x" 502 (some (PyVal.dict [])) = sign_result "e@x" 502 none ∧
     check_account_status_result "e@x" 502 (some (PyVal.dict [])) =
       check_account_status_result "e@x" 502 none) :=
  ⟨by decide, c9_falsy_indistinguishable "e@x" 502 (PyVal.dict []) (by decide)⟩

theorem signRun_shape (o : Oracle) (i : ℕ) (email : String)
    (h : (signRun o i email).2.isSome = true) :
    ∃ line msg, signRun o i email =
      ([Event.httpCheckin email, Event.console line], some msg) := by
  unfold signRun at h ⊢
  split at h
  · exact ⟨_, _, rfl⟩
  · split at h
    · simp at h
    · exact ⟨_, _, rfl⟩

theorem statusRun_shape (o : Oracle) (i : ℕ) (email : String) :
    ∃ msg, statusRun o i email = ([Event.httpStatus email], msg) := by
  unfold statusRun
  cases o.statusResp i with
  | error e => exact ⟨_, rfl⟩
  | ok r => exact ⟨_, rfl⟩

/-- C1 (counterexample): with two configured accounts and full
notification configuration, the run contains two sleep events, not
one: the loop also sleeps after the last account. -/
theorem c1_counterexample :
    countEv isSleepEv (multi_account_sign_run
      { checkinResp := fun _ => Except.error "down"
        statusResp := fun _ => Except.error "down"
        sleepDur := fun _ => 5
        now := "t" } (some "T") (some "C") [("a@x", "k1"), ("b@x", "k2")]) = 2 ∧
    (2 : ℕ) ≠ 1 := by
  exact ⟨by decide, by decide⟩

/-- C1 (amended): with two configured accounts whose check-in handling
raises no exception and with truthy notification settings, the
non-console events of the run are exactly: account one check-in,
account one status, a sleep, account two check-in, account two status,
a sleep, and the notification; so the four HTTP calls happen in the
claimed order, one sleep separates the two accounts, and one further
sleep follows the last account before the single notification. -/
theorem c1_two_accounts_trace (o : Oracle) (e1 k1 e2 k2 bt ci : String)
    (hbt : bt.isEmpty = false) (hci : ci.isEmpty = false)
    (h1 : (signRun o 1 e1).2.isSome = true)
    (h2 : (signRun o 2 e2).2.isSome = true) :
    (multi_account_sign_run o (some bt) (some ci) [(e1, k1), (e2, k2)]).filter
        (fun e => !isConsoleEv e) =
      [Event.httpCheckin e1, Event.httpStatus e1, Event.sleepFor (o.sleepDur 1),
       Event.httpCheckin e2, Event.httpStatus e2, Event.sleepFor (o.sleepDur 2),
       Event.notify bt ci] ∧
    countEv isSleepEv (multi_account_sign_run o (some bt) (some ci)
      [(e1, k1), (e2, k2)]) = 2 ∧
    countEv isNotifyEv (multi_account_sign_run o (some bt) (some ci)
      [(e1, k1), (e2, k2)]) = 1 := by
  obtain ⟨l1, m1, hs1⟩ := signRun_shape o 1 e1 h1
  obtain ⟨l2, m2, hs2⟩ := signRun_shape o 2 e2 h2
  obtain ⟨sm1, ht1⟩ := statusRun_shape o 1 e1
  obtain ⟨sm2, ht2⟩ := statusRun_shape o 2 e2
  have hr2 : runLoop o 2 [(e2, k2)] =
      ([Event.httpCheckin e2, Event.console l2, Event.httpStatus e2,
        Event.sleepFor (o.sleepDur 2)], some ([m2], [sm2])) := by
    unfold runLoop
    rw [hs2, ht2]
    simp [runLoop]
  have hr1 : runLoop o 1 [(e1, k1), (e2, k2)] =
      ([Event.httpCheckin e1, Event.console l1, Event.httpStatus e1,
        Event.sleepFor (o.sleepDur 1), Event.httpCheckin e2, Event.console l2,
        Event.httpStatus e2, Event.sleepFor (o.sleepDur 2)],
       some ([m1, m2], [sm1, sm2])) := by
    unfold runLoop
    rw [hs1, ht1]
    simp [hr2]
  have htr : multi_account_sign_run o (some bt) (some ci) [(e1, k1), (e2, k2)] =
      [Event.httpCheckin e1, Event.console l1, Event.httpStatus e1,
       Event.sleepFor (o.sleepDur 1),
       Event.httpCheckin e2, Event.console l2, Event.httpStatus e2,
       Event.sleepFor (o.sleepDur 2),
       Event.notify bt ci] := by
    simp [multi_account_sign_run, hr1, truthyOptS, hbt, hci]
  rw [htr]
  refine ⟨?_, ?_, ?_⟩ <;> rfl

/-- C1 witness: concrete instantiation of the two-account trace result
on the demo oracle, with every hypothesis discharged by evaluation. -/
theorem c1_witness :
    ("T" : String).isEmpty = false ∧
    ("C" : String).isEmpty = false ∧
    (signRun demoOracle 1 "a@x").2.isSome = true ∧
    (signRun demoOracle 2 "b@x").2.isSome = true ∧
    ((multi_account_sign_run demoOracle (some "T") (some "C")
        [("a@x", "k1"), ("b@x", "k2")]).filter (fun e => !isConsoleEv e) =
      [Event.httpCheckin "a@x", Event.httpStatus "a@x",
       Event.sleepFor (demoOracle.sleepDur 1),
       Event.httpCheckin "b@x", Event.httpStatus "b@x",
       Event.sleepFor (demoOracle.sleepDur 2),
       Event.notify "T" "C"] ∧
     countEv isSleepEv (multi_account_sign_run demoOracle (some "T") (some "C")
       [("a@x", "k1"), ("b@x", "k2")]) = 2 ∧
     countEv isNotifyEv (multi_account_sign_run demoOracle (some "T") (some "C")
       [("a@x", "k1"), ("b@x", "k2")]) = 1) :=
  ⟨by decide, by decide, by decide, by decide,
   c1_two_accounts_trace demoOracle "a@x" "k1" "b@x" "k2" "T" "C"
     (by decide) (by decide) (by decide) (by decide)⟩

theorem isDigitCh_digitChar (n : ℕ) : isDigitCh (digitChar n) = true := by
  unfold digitChar
  split <;> decide

theorem digitChar_ne_zero {n : ℕ} (h0 : n ≠ 0) : digitChar n ≠ '0' := by
  unfold digitChar
  split
  · exact absurd rfl h0
  all_goals decide

theorem natDigitsAux_digits :
    ∀ fuel n : ℕ, ∀ c ∈ natDigitsAux fuel n, isDigitCh c = true := by
  intro fuel
  induction fuel with
  | zero =>
    intro n c h
    simp [natDigitsAux] at h
  | succ f ih =>
    intro n c h
    unfold natDigitsAux at h
    by_cases hn : n < 10
    · rw [if_pos hn] at h
      simp at h
      subst h
      exact isDigitCh_digitChar n
    · rw [if_neg hn] at h
      rcases List.mem_append.mp h with h | h
      · exact ih _ _ h
      · simp at h
        subst h
        exact isDigitCh_digitChar _

theorem dot_not_mem_natDigits (n : ℕ) : '.' ∉ natDigits n := by
  intro h
  have hd := natDigitsAux_digits _ _ _ h
  exact absurd hd (by decide)

theorem natDigits_ne_nil (n : ℕ) : natDigits n ≠ [] := by
  unfold natDigits natDigitsAux
  by_cases hn : n < 10 <;> simp [hn]

theorem natDigitsAux_exists_nonzero :
    ∀ fuel n : ℕ, n ≠ 0 → n < 10 ^ fuel →
      ∃ c ∈ natDigitsAux fuel n, c ≠ '0' := by
  intro fuel
  induction fuel with
  | zero =>
    intro n h0 h1
    simp at h1
    omega
  | succ f ih =>
    intro n h0 h1
    unfold natDigitsAux
    by_cases hn : n < 10
    · rw [if_pos hn]
      exact ⟨digitChar n, by simp, digitChar_ne_zero h0⟩
    · rw [if_neg hn]
      by_cases hm : n % 10 = 0
      · have h10 : n / 10 ≠ 0 := by omega
        have hlt : n / 10 < 10 ^ f := by
          rw [Nat.div_lt_iff_lt_mul (by norm_num)]
          rw [← pow_succ] at *
          exact h1
        obtain ⟨c, hc, hcz⟩ := ih (n / 10) h10 hlt
        exact ⟨c, List.mem_append_left _ hc, hcz⟩
      · exact ⟨digitChar (n % 10), List.mem_append_right _ (by simp),
          digitChar_ne_zero hm⟩

theorem natDigitsAux_length_le :
    ∀ fuel n k : ℕ, n < 10 ^ k → 1 ≤ k → (natDigitsAux fuel n).length ≤ k := by
  intro fuel
  induction fuel with
  | zero =>
    intro n k _ hk
    simp [natDigitsAux]
  | succ f ih =>
    intro n k h1 hk
    unfold natDigitsAux
    by_cases hn : n < 10
    · rw [if_pos hn]
      simpa using hk
    · rw [if_neg hn]
      have hk2 : 2 ≤ k := by
        by_contra hkk
        have hk1 : k = 1 := by omega
        subst hk1
        simp at h1
        omega
      have hpow : 10 ^ (k - 1) * 10 = 10 ^ k := by
        rw [← pow_succ]
        congr 1
        omega
      have hdiv : n / 10 < 10 ^ (k - 1) := by
        rw [Nat.div_lt_iff_lt_mul (by norm_num)]
        omega
      have hrec := ih (n / 10) (k - 1) hdiv (by omega)
      simp only [List.length_append, List.length_cons, List.length_nil]
      omega

theorem natDigits_length_le {n k : ℕ} (h1 : n < 10 ^ k) (hk : 1 ≤ k) :
    (natDigits n).length ≤ k :=
  natDigitsAux_length_le (n + 1) n k h1 hk

theorem digitsToNat_foldl_lt :
    ∀ l : Chars, l.all isDigitCh = true → ∀ a : ℕ,
      List.foldl (fun a c => a * 10 + (c.toNat - 48)) a l < (a + 1) * 10 ^ l.length := by
  intro l
  induction l with
  | nil =>
    intro _ a
    simp only [List.foldl_nil, List.length_nil, pow_zero, mul_one]
    exact Nat.lt_succ_self a
  | cons c t ih =>
    intro h a
    simp only [List.all_cons, Bool.and_eq_true] at h
    obtain ⟨hc, ht⟩ := h
    have hd : c.toNat - 48 ≤ 9 := by
      simp [isDigitCh] at hc
      omega
    simp only [List.foldl_cons, List.length_cons]
    have hrec := ih ht (a * 10 + (c.toNat - 48))
    have hmul : (a * 10 + (c.toNat - 48) + 1) * 10 ^ t.length ≤
        ((a + 1) * 10) * 10 ^ t.length :=
      Nat.mul_le_mul_right _ (by omega)
    calc List.foldl (fun a c => a * 10 + (c.toNat - 48)) (a * 10 + (c.toNat - 48)) t
        < (a * 10 + (c.toNat - 48) + 1) * 10 ^ t.length := hrec
      _ ≤ ((a + 1) * 10) * 10 ^ t.length := hmul
      _ = (a + 1) * 10 ^ (t.length + 1) := by ring

theorem digitsToNat_lt {l : Chars} (h : l.all isDigitCh = true) :
    digitsToNat l < 10 ^ l.length := by
  have hb := digitsToNat_foldl_lt l h 0
  simpa [digitsToNat] using hb

theorem parseDec_frac_digits {s : Chars} {ip : ℕ} {fp : Chars}
    (h : parseDec s = some (ip, fp)) : fp.all isDigitCh = true := by
  unfold parseDec at h
  split at h
  · split_ifs at h with hc
    injection h with h1
    injection h1 with _ h2
    subst h2
    rfl
  · split_ifs at h with hc
    injection h with h1
    injection h1 with _ h2
    subst h2
    simp only [Bool.and_eq_true] at hc
    exact hc.2
  · cases h

theorem dropWhile_append_left {p : Char → Bool} :
    ∀ a b : Chars, (∃ x ∈ a, p x = false) →
      List.dropWhile p (a ++ b) = List.dropWhile p a ++ b := by
  intro a
  induction a with
  | nil =>
    intro b h
    simp at h
  | cons c t ih =>
    intro b h
    by_cases hc : p c = true
    · rw [List.cons_append, List.dropWhile_cons, if_pos hc,
        List.dropWhile_cons, if_pos hc]
      apply ih
      rcases h with ⟨x, hx, hpx⟩
      rcases List.mem_cons.mp hx with rfl | hx'
      · rw [hc] at hpx
        cases hpx
      · exact ⟨x, hx', hpx⟩
    · rw [List.cons_append, List.dropWhile_cons, if_neg hc,
        List.dropWhile_cons, if_neg hc, List.cons_append]

theorem dropWhile_head_false {p : Char → Bool} :
    ∀ l : Chars, ∀ c t, List.dropWhile p l = c :: t → p c = false := by
  intro l
  induction l with
  | nil =>
    intro c t h
    simp at h
  | cons x xs ih =>
    intro c t h
    rw [List.dropWhile_cons] at h
    by_cases hx : p x = true
    · rw [if_pos hx] at h
      exact ih c t h
    · rw [if_neg hx] at h
      injection h with h1 _
      subst h1
      exact Bool.eq_false_iff.mpr hx

theorem mem_of_mem_dropWhile {p : Char → Bool} {l : Chars} {c : Char}
    (h : c ∈ List.dropWhile p l) : c ∈ l :=
  (List.dropWhile_sublist p).subset h

theorem rstrip_frac_form (I F8 : Chars)
    (hdig : ∀ c ∈ F8, isDigitCh c = true)
    (hnz : ∃ c ∈ F8, c ≠ '0') :
    ∃ F', rstripChar '.' (rstripChar '0' (I ++ '.' :: F8)) = I ++ '.' :: F' ∧
      F' ≠ [] ∧ F'.getLast? ≠ some '0' := by
  obtain ⟨w, hw, hwz⟩ := hnz
  have hw0 : (w == '0') = false := beq_eq_false_iff_ne.mpr hwz
  have hex : ∃ x ∈ F8.reverse, (fun x => x == '0') x = false :=
    ⟨w, List.mem_reverse.mpr hw, hw0⟩
  have hrev : (I ++ '.' :: F8).reverse = F8.reverse ++ '.' :: I.reverse := by
    simp
  have hD := dropWhile_append_left F8.reverse ('.' :: I.reverse) hex
  have hDne : List.dropWhile (fun x => x == '0') F8.reverse ≠ [] := by
    intro hnil
    rw [List.dropWhile_eq_nil_iff] at hnil
    have hww := hnil w (List.mem_reverse.mpr hw)
    rw [hw0] at hww
    cases hww
  obtain ⟨d, dt, hDeq⟩ := List.exists_cons_of_ne_nil hDne
  have hdz : (d == '0') = false :=
    dropWhile_head_false F8.reverse d dt hDeq
  have hdmem : d ∈ F8 := by
    have hmem : d ∈ List.dropWhile (fun x => x == '0') F8.reverse := by
      rw [hDeq]
      exact List.mem_cons_self _ _
    exact List.mem_reverse.mp (mem_of_mem_dropWhile hmem)
  have hddig : isDigitCh d = true := hdig d hdmem
  have hddot : (d == '.') = false := by
    apply beq_eq_false_iff_ne.mpr
    intro hdd
    subst hdd
    exact absurd hddig (by decide)
  have h1 : rstripChar '0' (I ++ '.' :: F8) =
      I ++ '.' :: (List.dropWhile (fun x => x == '0') F8.reverse).reverse := by
    unfold rstripChar
    rw [hrev, hD]
    simp
  refine ⟨(List.dropWhile (fun x => x == '0') F8.reverse).reverse, ?_, ?_, ?_⟩
  · rw [h1]
    unfold rstripChar
    have hrev2 : (I ++ '.' ::
        (List.dropWhile (fun x => x == '0') F8.reverse).reverse).reverse =
        List.dropWhile (fun x => x == '0') F8.reverse ++ '.' :: I.reverse := by
      simp
    rw [hrev2, hDeq, List.cons_append, List.dropWhile_cons]
    rw [hddot]
    simp only [Bool.false_eq_true, if_false]
    rw [← List.cons_append, ← hDeq, ← hrev2, List.reverse_reverse]
  · simp [hDne]
  · rw [List.getLast?_reverse, hDeq]
    simp only [List.head?_cons]
    intro hcon
    injection hcon with hdd
    rw [hdd] at hdz
    simp at hdz

theorem format_days_int_case {s : String} {ip : ℕ} {fp : Chars}
    (hp : parseDec s.data = some (ip, fp)) (hz : digitsToNat fp = 0) :
    format_days s = some ⟨natDigits ip⟩ := by
  unfold format_days
  rw [hp]
  simp [hz]

theorem format_days_frac_case {s : String} {ip : ℕ} {fp : Chars}
    (hp : parseDec s.data = some (ip, fp))
    (hnz : digitsToNat fp ≠ 0) (hlen : fp.length ≤ 8) :
    ∃ r : String, format_days s = some r ∧ '.' ∈ r.data ∧
      r.data.getLast? ≠ some '0' := by
  have hfdig := parseDec_frac_digits hp
  have hflt : digitsToNat fp < 10 ^ fp.length := digitsToNat_lt hfdig
  have hscaled : fracScaled8 fp = digitsToNat fp * 10 ^ (8 - fp.length) := by
    unfold fracScaled8
    rw [if_pos hlen]
  have hf8nz : fracScaled8 fp ≠ 0 := by
    rw [hscaled]
    exact Nat.mul_ne_zero hnz (pow_ne_zero _ (by norm_num))
  have hf8lt : fracScaled8 fp < 10 ^ 8 := by
    rw [hscaled]
    calc digitsToNat fp * 10 ^ (8 - fp.length)
        < 10 ^ fp.length * 10 ^ (8 - fp.length) :=
          (Nat.mul_lt_mul_right (pow_pos (by norm_num) _)).mpr hflt
      _ = 10 ^ 8 := by
          rw [← pow_add]
          congr 1
          omega
  have hdiv : (ip * 10 ^ 8 + fracScaled8 fp) / 10 ^ 8 = ip := by
    rw [Nat.mul_comm ip (10 ^ 8), Nat.mul_add_div (by positivity),
      Nat.div_eq_of_lt hf8lt]
    omega
  have hmod : (ip * 10 ^ 8 + fracScaled8 fp) % 10 ^ 8 = fracScaled8 fp := by
    rw [Nat.mul_comm ip (10 ^ 8), Nat.mul_add_mod, Nat.mod_eq_of_lt hf8lt]
  have hdig8 : ∀ c ∈ padZeros 8 (natDigits (fracScaled8 fp)), isDigitCh c = true := by
    intro c hc
    unfold padZeros at hc
    rcases List.mem_append.mp hc with hc | hc
    · have hc0 := List.eq_of_mem_replicate hc
      subst hc0
      decide
    · exact natDigitsAux_digits _ _ c hc
  have hnz8 : ∃ c ∈ padZeros 8 (natDigits (fracScaled8 fp)), c ≠ '0' := by
    have hfuel : fracScaled8 fp < 10 ^ (fracScaled8 fp + 1) := by
      have h1 : fracScaled8 fp < 10 ^ fracScaled8 fp :=
        Nat.lt_pow_self (by norm_num) _
      have h2 : (10 : ℕ) ^ fracScaled8 fp ≤ 10 ^ (fracScaled8 fp + 1) :=
        Nat.pow_le_pow_right (by norm_num) (by omega)
      omega
    obtain ⟨c, hc, hcz⟩ :=
      natDigitsAux_exists_nonzero (fracScaled8 fp + 1) (fracScaled8 fp) hf8nz hfuel
    refine ⟨c, ?_, hcz⟩
    unfold padZeros
    exact List.mem_append_right _ hc
  obtain ⟨F', hF, hFne, hFlast⟩ :=
    rstrip_frac_form (natDigits ip) (padZeros 8 (natDigits (fracScaled8 fp)))
      hdig8 hnz8
  refine ⟨⟨natDigits ip ++ '.' :: F'⟩, ?_, ?_, ?_⟩
  · unfold format_days
    rw [hp]
    simp only [hnz, if_false, hdiv, hmod, hF]
  · exact List.mem_append_right _ (List.mem_cons_self _ _)
  · have hg1 : (natDigits ip ++ '.' :: F').getLast? = ('.' :: F').getLast? :=
      List.getLast?_append_of_ne_nil _ (by simp)
    have hg2 : ('.' :: F').getLast? = F'.getLast? := by
      rw [show ('.' :: F') = ['.'] ++ F' from rfl]
      exact List.getLast?_append_of_ne_nil _ hFne
    show (natDigits ip ++ '.' :: F').getLast? ≠ some '0'
    rw [hg1, hg2]
    exact hFlast

/-- C6 (confirmed): format_days trims trailing zeros: the input
3.00000000 yields 3, the input 3.50000000 yields 3.5, and the input 0
yields 0; in general, over the parsed decimal domain, an integral value
renders with no decimal point, and a fractional value with at most
eight fractional digits renders with a decimal point and with a final
character that is not a zero, so only the significant fractional digits
remain. -/
theorem c6_format_days_trims :
    format_days "3.00000000" = some "3" ∧
    format_days "3.50000000" = some "3.5" ∧
    format_days "0" = some "0" ∧
    (∀ (s : String) (ip : ℕ) (fp : Chars), parseDec s.data = some (ip, fp) →
      (digitsToNat fp = 0 →
        format_days s = some ⟨natDigits ip⟩ ∧ '.' ∉ natDigits ip) ∧
      (digitsToNat fp ≠ 0 → fp.length ≤ 8 →
        ∃ r : String, format_days s = some r ∧ '.' ∈ r.data ∧
          r.data.getLast? ≠ some '0')) := by
  refine ⟨by decide, by decide, by decide, ?_⟩
  intro s ip fp hp
  constructor
  · intro hz
    exact ⟨format_days_int_case hp hz, dot_not_mem_natDigits ip⟩
  · intro hnz hlen
    exact format_days_frac_case hp hnz hlen

/-- C6 witness: concrete fractional input with the general clause
instantiated and all hypotheses discharged by evaluation. -/
theorem c6_witness :
    parseDec ("7.25000000" : String).data = some (7, "25000000".data) ∧
    (digitsToNat "25000000".data ≠ 0 ∧ ("25000000".data).length ≤ 8) ∧
    ∃ r : String, format_days "7.25000000" = some r ∧ '.' ∈ r.data ∧
      r.data.getLast? ≠ some '0' := by
  refine ⟨by decide, ⟨by decide, by decide⟩, ?_⟩
  exact (c6_format_days_trims.2.2.2 "7.25000000" 7 "25000000".data
    (by decide)).2 (by decide) (by decide)
